import Mathlib

/-!
Verification of the iterative sparse solvers of `ffthompy/sparse/solver.py`
(Chebyshev two-term semi-iteration, minimal residual, Richardson, and the
diagnostic Richardson variant), shallowly embedded over exact rational
arithmetic.  Scalars of the Python code (numpy floats) are modelled by `ℚ`;
Python 3 true division is rational division.  The low-rank tensor capability
(`ffthompy.sparse.objects.SparseTensor`) is external to the solver module and
is modelled as an abstract record of operations.
-/

namespace FFTHomPy

/-- Python runtime errors that the solver functions can raise. -/
inductive PyErr where
  | notImplementedError : PyErr
  | valueError : PyErr
  | typeError : PyErr
  | zeroDivisionError : PyErr
deriving DecidableEq, Repr

/-- Modelled from the spec: the opaque low-rank tensor capability consumed by
the solvers (the `SparseTensor` arithmetic of `ffthompy.sparse.objects`, which
is outside the solver source): pointwise addition, subtraction, scalar
multiplication, a norm, the `normal_domain=False` norm variant, an inner
product, the spatial mean, rank/tolerance truncation (the `rank`/`tol`
truncation targets of a solver call are folded into this map), and the
constant reference field `FM = M.fourier().enlarge(x.N)` built from the
all-ones rank-1 tensor `M` and used for the mean correction. -/
structure TensorOps (T : Type) where
  add : T → T → T
  sub : T → T → T
  smul : ℚ → T → T
  norm : T → ℚ
  normND : T → ℚ
  inner : T → T → ℚ
  mean : T → ℚ
  truncate : T → T
  fm : T

/-- Python 3 semantics of the comparison `q < l` between a float and a list
(solver.py line 87, `par['tol'] < res['norm_res']`): it raises `TypeError`
(`'<' not supported between instances of 'float' and 'list'`). -/
def pyLtFloatList (_q : ℚ) (_l : List ℚ) : Except PyErr Bool :=
  .error .typeError

/-- Parameters dictionary of `cheby2TERM`: `tol` and `maxiter` are optional
(defaults `1e-6` and `1e7` are injected), `eigrange` has no default. -/
structure ChebyPar where
  tol? : Option ℚ
  maxiter? : Option ℚ
  eigrange? : Option (ℚ × ℚ)

/-- The `res['norm_res']` field of the Chebyshev result: normally a list of
normalized residual norms, but solver.py lines 92-93 reassign it to the
scalar `0` when `res['kit'] == 0`. -/
inductive NormRes where
  | scalar : ℚ → NormRes
  | seq : List ℚ → NormRes
deriving DecidableEq, Repr

/-- Loop state of `cheby2TERM`: iterate `x`, residual `r`, auxiliary
direction `v`, the loop-carried recurrence weight `w`, the residual-norm
history `res['norm_res']` and the iteration counter `res['kit']`. -/
structure ChebyState (T : Type) where
  x : T
  r : T
  v : T
  w : ℚ
  hist : List ℚ
  kit : ℕ

/-- One execution of the `cheby2TERM` while-loop body (solver.py lines
59-85), with Python 3 division semantics: at `kit = 2` the literal `(1/2)`
is `0.5`.  The new `v` is `truncate(r - p*v)`, the new iterate is
`x_prev + w*v` followed by the mean correction
`(-FM*x.mean() + x).truncate(...)`, the residual is recomputed exactly, and
the normalized residual norm `(1/r0)*‖r‖` is appended to the history. -/
def chebyStep {T : Type} (ops : TensorOps T) (Afun : T → T) (B : T)
    (d c r0 : ℚ) (s : ChebyState T) : ChebyState T :=
  let kit := s.kit + 1
  let x_prev := s.x
  let pw : ℚ × ℚ :=
    if kit = 1 then (0, 1/d)
    else if kit = 2 then (-(1/2)*(c/d)*(c/d), 1/(d - c*c/2/d))
    else (-(c*c/4)*s.w*s.w, 1/(d - c*c*s.w/4))
  let p := pw.1
  let w := pw.2
  let v := ops.truncate (ops.sub s.r (ops.smul p s.v))
  let x := ops.add x_prev (ops.smul w v)
  let x := ops.truncate (ops.add (ops.smul (-(ops.mean x)) ops.fm) x)
  let r := ops.sub B (Afun x)
  { x := x, r := r, v := v, w := w,
    hist := s.hist ++ [(1/r0) * ops.norm r], kit := kit }

/-- The `cheby2TERM` while loop: continue while the last recorded normalized
residual `res['norm_res'][res['kit']]` exceeds `par['tol']` and
`res['kit'] < par['maxiter']`.  The fuel argument only bounds recursion; it
is instantiated above the iteration budget so that the guard, not the fuel,
terminates the loop. -/
def chebyLoop {T : Type} (ops : TensorOps T) (Afun : T → T) (B : T)
    (d c r0 tol maxiter : ℚ) : ℕ → ChebyState T → ChebyState T
  | 0, s => s
  | fuel + 1, s =>
    if s.hist.getD s.kit 0 > tol ∧ (s.kit : ℚ) < maxiter then
      chebyLoop ops Afun B d c r0 tol maxiter fuel
        (chebyStep ops Afun B d c r0 s)
    else s

/-- Embedding of `cheby2TERM` (solver.py lines 5-94).  Notable source
details kept: `Ib = 1.0/bnrm2` is computed before the `bnrm2 == 0` guard and
the guarded value is never read again (`_bnrm2` below is the dead store; in
`ℚ` the division `1/0` yields `0` where numpy yields `inf` — either way the
guard does not reach `Ib`); the early return happens when the initial
normalized residual is strictly below `tol`; after the loop the report line
compares the float `par['tol']` with the *list* `res['norm_res']`, which in
Python 3 raises `TypeError`; the `res['kit'] == 0` reassignment of the
history to the scalar `0` sits after that comparison.  The optional
per-iteration callback has no effect on the solver state and is omitted. -/
def cheby2TERM {T : Type} (ops : TensorOps T) (Afun : T → T) (B : T)
    (x0 : Option T) (par : ChebyPar) : Except PyErr (T × NormRes × ℕ) :=
  let tol := par.tol?.getD (1/1000000)
  let maxiter := par.maxiter?.getD 10000000
  match par.eigrange? with
  | none => .error .notImplementedError
  | some Egv =>
    let bnrm2 := ops.norm B
    let Ib := 1/bnrm2
    let _bnrm2 := if bnrm2 = 0 then (1 : ℚ) else bnrm2
    let x := x0.getD B
    let r := ops.sub B (Afun x)
    let r0 := ops.norm r
    let hist0 := [Ib * r0]
    if hist0.getD 0 0 < tol then
      .ok (x, .seq hist0, 0)
    else
      let d := (Egv.2 + Egv.1)/2
      let c := (Egv.2 - Egv.1)/2
      let v := ops.smul 0 x
      let s := chebyLoop ops Afun B d c r0 tol maxiter
        ((⌈maxiter⌉).toNat + 1) ⟨x, r, v, 0, hist0, 0⟩
      match pyLtFloatList tol s.hist with
      | .error e => .error e
      | .ok _ =>
        let nr : NormRes := if s.kit = 0 then .scalar 0 else .seq s.hist
        .ok (s.x, nr, s.kit)

/-- Parameters dictionary of `minimal_residual`: `tol`, `maxiter`,
`approx_omega` and `divcrit` are all read without defaults. -/
structure MRPar where
  tol : ℚ
  maxiter : ℚ
  approx_omega : Bool
  divcrit : Bool

/-- Loop state of `minimal_residual`: iterate `x`, maintained residual
`residuum`, `beta = Afun(residuum)`, the loop-carried scalar `norm_res`, the
history `res['norm_res']` and the iteration counter `res['kit']`. -/
structure MRState (T : Type) where
  x : T
  residuum : T
  beta : T
  norm_res : ℚ
  hist : List ℚ
  kit : ℕ

/-- The step-size computation of `minimal_residual` (solver.py lines
119-128): the approximate ratio `norm_res/norm(beta)` when
`par['approx_omega']` is set, otherwise the exact value
`beta.inner(residuum)/norm(beta)**2`, replaced by the approximate ratio when
its absolute value is below `1e-1`. -/
def mrOmega {T : Type} (ops : TensorOps T) (nrm : T → ℚ) (par : MRPar)
    (s : MRState T) : ℚ :=
  if par.approx_omega = true then
    s.norm_res / nrm s.beta
  else
    let omega := ops.inner s.beta s.residuum / (nrm s.beta)^2
    if |omega| < 1/10 then s.norm_res / nrm s.beta else omega

/-- One execution of the `minimal_residual` while-loop body (solver.py lines
116-148).  The iterate is updated with `omega` and mean-corrected, the
residual is recomputed exactly every 10th iteration and cheaply otherwise,
and then — after the update — the divergence check
`par['divcrit'] and norm_res > res['norm_res'][res['kit']-1]` either breaks
(returning `true`, leaving the history and `beta` untouched) or appends the
new norm and recomputes `beta`. -/
def mrStep {T : Type} (ops : TensorOps T) (Afun : T → T) (B : T)
    (nrm : T → ℚ) (par : MRPar) (s : MRState T) : MRState T × Bool :=
  let kit := s.kit + 1
  let omega := mrOmega ops nrm par s
  let x := ops.add s.x (ops.smul omega s.residuum)
  let x := ops.truncate (ops.add (ops.smul (-(ops.mean x)) ops.fm) x)
  let residuum :=
    if kit % 10 = 0 then ops.sub B (Afun x)
    else ops.truncate (ops.sub s.residuum (ops.smul omega s.beta))
  let nres := nrm residuum
  if par.divcrit = true ∧ nres > s.hist.getD (kit - 1) 0 then
    ({ x := x, residuum := residuum, beta := s.beta, norm_res := nres,
       hist := s.hist, kit := kit }, true)
  else
    ({ x := x, residuum := residuum, beta := Afun residuum, norm_res := nres,
       hist := s.hist ++ [nres], kit := kit }, false)

/-- The `minimal_residual` while loop: continue while `norm_res > par['tol']`
and `res['kit'] < par['maxiter']`; a step that reports a divergence break
ends the loop at once. -/
def mrLoop {T : Type} (ops : TensorOps T) (Afun : T → T) (B : T)
    (nrm : T → ℚ) (par : MRPar) : ℕ → MRState T → MRState T
  | 0, s => s
  | fuel + 1, s =>
    if s.norm_res > par.tol ∧ (s.kit : ℚ) < par.maxiter then
      match mrStep ops Afun B nrm par s with
      | (s', true) => s'
      | (s', false) => mrLoop ops Afun B nrm par fuel s'
    else s

/-- Embedding of `minimal_residual` (solver.py lines 96-150).  The norm is
configurable and defaults to the `normal_domain=False` norm variant; the
initial history holds the norm of the initial residual, and `beta` starts as
`Afun(residuum)`. -/
def minimal_residual {T : Type} (ops : TensorOps T) (Afun : T → T) (B : T)
    (x0 : Option T) (nrm? : Option (T → ℚ)) (par : MRPar) :
    T × List ℚ × ℕ :=
  let x := x0.getD B
  let nrm := nrm?.getD ops.normND
  let residuum := ops.sub B (Afun x)
  let h0 := nrm residuum
  let beta := Afun residuum
  let s := mrLoop ops Afun B nrm par ((⌈par.maxiter⌉).toNat + 1)
    ⟨x, residuum, beta, h0, [h0], 0⟩
  (s.x, s.hist, s.kit)

/-- The Python value stored under `par['alpha']`: either a plain float
(modelled by a rational) or any other Python object, which fails the
`isinstance(par['alpha'], float)` test. -/
inductive PyVal where
  | pyFloat : ℚ → PyVal
  | pyOther : PyVal
deriving DecidableEq, Repr

/-- Parameters dictionary of `richardson` and `richardson_debug`. -/
structure RichPar where
  alpha : PyVal
  tol : ℚ
  maxiter : ℚ
  divcrit : Bool

/-- Loop state of `richardson` (and of its diagnostic variant): iterate `x`,
the loop-carried scalar `norm_res`, the history and the iteration counter. -/
structure RichState (T : Type) where
  x : T
  norm_res : ℚ
  hist : List ℚ
  kit : ℕ

/-- One execution of the `richardson` while-loop body (solver.py lines
173-183).  The exact residual `B - Afun(x)` and its norm are computed first;
the divergence check `par['divcrit'] and norm_res > res['norm_res'][kit-1]`
breaks (returning `true`) *before* the iterate is updated and before the
norm is appended; otherwise the iterate is updated, mean-corrected, and the
norm appended. -/
def richStep {T : Type} (ops : TensorOps T) (Afun : T → T) (B : T)
    (nrm : T → ℚ) (omega : ℚ) (par : RichPar) (s : RichState T) :
    RichState T × Bool :=
  let kit := s.kit + 1
  let residuum := ops.sub B (Afun s.x)
  let nres := nrm residuum
  if par.divcrit = true ∧ nres > s.hist.getD (kit - 1) 0 then
    ({ x := s.x, norm_res := nres, hist := s.hist, kit := kit }, true)
  else
    let x := ops.add s.x (ops.smul omega residuum)
    let x := ops.truncate (ops.add (ops.smul (-(ops.mean x)) ops.fm) x)
    ({ x := x, norm_res := nres, hist := s.hist ++ [nres], kit := kit }, false)

/-- The `richardson` while loop, guarded by `norm_res > par['tol']` and
`res['kit'] < par['maxiter']`; a divergence break ends the loop at once. -/
def richLoop {T : Type} (ops : TensorOps T) (Afun : T → T) (B : T)
    (nrm : T → ℚ) (omega : ℚ) (par : RichPar) : ℕ → RichState T → RichState T
  | 0, s => s
  | fuel + 1, s =>
    if s.norm_res > par.tol ∧ (s.kit : ℚ) < par.maxiter then
      match richStep ops Afun B nrm omega par s with
      | (s', true) => s'
      | (s', false) => richLoop ops Afun B nrm omega par fuel s'
    else s

/-- Body of `richardson` after the `alpha` validation (solver.py lines
157-185): default iterate `B*omega`, default norm `X.norm()`, initial
history `[norm(B)]`, initial `norm_res = 1e15`. -/
def richardsonRun {T : Type} (ops : TensorOps T) (Afun : T → T) (B : T)
    (x0 : Option T) (nrm? : Option (T → ℚ)) (par : RichPar) (omega : ℚ) :
    T × List ℚ × ℕ :=
  let nrm := nrm?.getD ops.norm
  let x := x0.getD (ops.smul omega B)
  let s := richLoop ops Afun B nrm omega par ((⌈par.maxiter⌉).toNat + 1)
    ⟨x, 10^15, [nrm B], 0⟩
  (s.x, s.hist, s.kit)

/-- Embedding of `richardson` (solver.py lines 152-185): the very first
statement tests `isinstance(par['alpha'], float)` and raises `ValueError`
otherwise; on success the step size is `omega = 1./par['alpha']`, a plain
CPython float division that raises `ZeroDivisionError` when `alpha` is the
zero float. -/
def richardson {T : Type} (ops : TensorOps T) (Afun : T → T) (B : T)
    (x0 : Option T) (nrm? : Option (T → ℚ)) (par : RichPar) :
    Except PyErr (T × List ℚ × ℕ) :=
  match par.alpha with
  | .pyFloat a =>
    if a = 0 then .error .zeroDivisionError
    else .ok (richardsonRun ops Afun B x0 nrm? par (1/a))
  | .pyOther => .error .valueError

/-- One execution of the `richardson_debug` while-loop body (solver.py lines
205-219): exact residual, eager truncation of the updated iterate, *no* mean
correction and *no* divergence check; the timing instrumentation has no
effect on the solver state and is omitted. -/
def richdbgStep {T : Type} (ops : TensorOps T) (Afun : T → T) (B : T)
    (nrm : T → ℚ) (omega : ℚ) (s : RichState T) : RichState T :=
  let kit := s.kit + 1
  let residuum := ops.sub B (Afun s.x)
  let x := ops.truncate (ops.add s.x (ops.smul omega residuum))
  let nres := nrm residuum
  { x := x, norm_res := nres, hist := s.hist ++ [nres], kit := kit }

/-- The `richardson_debug` while loop. -/
def richdbgLoop {T : Type} (ops : TensorOps T) (Afun : T → T) (B : T)
    (nrm : T → ℚ) (omega : ℚ) (par : RichPar) : ℕ → RichState T → RichState T
  | 0, s => s
  | fuel + 1, s =>
    if s.norm_res > par.tol ∧ (s.kit : ℚ) < par.maxiter then
      richdbgLoop ops Afun B nrm omega par fuel
        (richdbgStep ops Afun B nrm omega s)
    else s

/-- Body of `richardson_debug` after the `alpha` validation (solver.py lines
192-221): the initial iterate is eagerly truncated, the history starts
*empty*, and a final exact residual norm is appended after the loop exits. -/
def richardson_debugRun {T : Type} (ops : TensorOps T) (Afun : T → T) (B : T)
    (x0 : Option T) (nrm? : Option (T → ℚ)) (par : RichPar) (omega : ℚ) :
    T × List ℚ × ℕ :=
  let nrm := nrm?.getD ops.norm
  let x := ops.truncate (x0.getD (ops.smul omega B))
  let s := richdbgLoop ops Afun B nrm omega par ((⌈par.maxiter⌉).toNat + 1)
    ⟨x, 10^15, [], 0⟩
  (s.x, s.hist ++ [nrm (ops.sub B (Afun s.x))], s.kit)

/-- Embedding of `richardson_debug` (solver.py lines 187-221), with the same
`isinstance(par['alpha'], float)` validation and fallible
`omega = 1./par['alpha']` division as `richardson`. -/
def richardson_debug {T : Type} (ops : TensorOps T) (Afun : T → T) (B : T)
    (x0 : Option T) (nrm? : Option (T → ℚ)) (par : RichPar) :
    Except PyErr (T × List ℚ × ℕ) :=
  match par.alpha with
  | .pyFloat a =>
    if a = 0 then .error .zeroDivisionError
    else .ok (richardson_debugRun ops Afun B x0 nrm? par (1/a))
  | .pyOther => .error .valueError

/-- Modelled from the spec: a concrete instance of the tensor capability on a
two-point grid.  Fields are pairs of rationals, arithmetic is pointwise, the
norm (and its `normal_domain=False` variant) is the sum of absolute values,
the inner product is the pointwise pairing, the mean is the average of the
two values, the constant reference field is all ones, and truncation is the
exact (identity) truncation of the idealized exact-arithmetic model. -/
def modelOps : TensorOps (ℚ × ℚ) where
  add a b := (a.1 + b.1, a.2 + b.2)
  sub a b := (a.1 - b.1, a.2 - b.2)
  smul q a := (q * a.1, q * a.2)
  norm a := |a.1| + |a.2|
  normND a := |a.1| + |a.2|
  inner a b := a.1 * b.1 + a.2 * b.2
  mean a := (a.1 + a.2)/2
  truncate a := a
  fm := (1, 1)

/-- The operator `A = -I` on the two-point model, used to drive the solvers
into divergence. -/
def negId : ℚ × ℚ → ℚ × ℚ := fun v => (-v.1, -v.2)

/-- The operator `A = 2·I` on the two-point model. -/
def twoId : ℚ × ℚ → ℚ × ℚ := fun v => (2 * v.1, 2 * v.2)

/-- A residual-norm history is non-increasing: every entry is at most its
predecessor. -/
def MonoQ (l : List ℚ) : Prop :=
  ∀ i, i + 1 < l.length → l.getD (i + 1) 0 ≤ l.getD i 0

lemma getD_append_lt (l l' : List ℚ) (i : ℕ) (h : i < l.length) :
    (l ++ l').getD i 0 = l.getD i 0 := by
  induction l generalizing i with
  | nil => simp at h
  | cons a t ih =>
    cases i with
    | zero => rfl
    | succ j =>
      exact ih j (by simp at h; omega)

lemma getD_snoc_len (l : List ℚ) (q : ℚ) :
    (l ++ [q]).getD l.length 0 = q := by
  induction l with
  | nil => rfl
  | cons a t ih => exact ih

lemma monoQ_snoc (l : List ℚ) (q : ℚ) (hm : MonoQ l)
    (hq : q ≤ l.getD (l.length - 1) 0) : MonoQ (l ++ [q]) := by
  intro i hi
  have hlen : i + 1 < l.length + 1 := by simpa using hi
  rcases Nat.lt_or_ge (i + 1) l.length with hlt | hge
  · rw [getD_append_lt l [q] (i + 1) hlt,
      getD_append_lt l [q] i (Nat.lt_of_succ_lt hlt)]
    exact hm i hlt
  · have heq : i + 1 = l.length := Nat.le_antisymm (Nat.lt_succ_iff.mp hlen) hge
    have hi' : i < l.length := heq ▸ Nat.lt_succ_self i
    rw [heq, getD_snoc_len, getD_append_lt l [q] i hi']
    have : l.length - 1 = i := by omega
    rwa [this] at hq

/-- C10: `cheby2TERM` raises its fatal `NotImplementedError` if and only if
`'eigrange'` is absent from the parameters; and when it is absent, the error
result is the same for every operator, right-hand side and initial guess, so
it is raised before any residual is computed, before the operator is applied
and before any iteration is performed. -/
theorem cheby2TERM_eigrange_fatal {T : Type} (ops : TensorOps T)
    (Afun : T → T) (B : T) (x0 : Option T) (par : ChebyPar) :
    (cheby2TERM ops Afun B x0 par = .error .notImplementedError ↔
      par.eigrange? = none)
    ∧ (par.eigrange? = none →
        ∀ (Afun₂ : T → T) (B₂ : T) (x0₂ : Option T),
          cheby2TERM ops Afun₂ B₂ x0₂ par = .error .notImplementedError) := by
  constructor
  · constructor
    · intro h
      cases he : par.eigrange? with
      | none => rfl
      | some Egv =>
        exfalso
        simp only [cheby2TERM, he] at h
        split at h
        · exact Except.noConfusion h
        · simp only [pyLtFloatList] at h
          exact PyErr.noConfusion (Except.error.inj h)
    · intro h
      simp only [cheby2TERM, h]
  · intro h Afun₂ B₂ x0₂
    simp only [cheby2TERM, h]

/-- C10 witness: a parameter set without `eigrange` makes `cheby2TERM` fail
with `NotImplementedError` on the concrete two-point model. -/
theorem cheby2TERM_eigrange_fatal_witness :
    cheby2TERM modelOps id ((1:ℚ), (0:ℚ)) none ⟨none, none, none⟩
      = .error .notImplementedError :=
  (cheby2TERM_eigrange_fatal modelOps id ((1:ℚ), (0:ℚ)) none
    ⟨none, none, none⟩).1.mpr rfl

/-- C9 counterexample: `alpha = 0.0` is a plain float, yet both Richardson
variants raise a fatal error immediately — `omega = 1./par['alpha']` is a
CPython float division by zero — refuting "raise a fatal error if and only
if `par['alpha']` is not a plain real value" and "when `par['alpha']` is a
real value they proceed with `omega = 1/alpha`". -/
theorem richardson_alpha_zero_cex :
    richardson modelOps id ((1:ℚ), (0:ℚ)) none none
        ⟨.pyFloat 0, 1/1000, 10, false⟩ = .error .zeroDivisionError
    ∧ richardson_debug modelOps id ((1:ℚ), (0:ℚ)) none none
        ⟨.pyFloat 0, 1/1000, 10, false⟩ = .error .zeroDivisionError := by
  constructor
  · simp [richardson]
  · simp [richardson_debug]

/-- C9 (amended): `richardson` and `richardson_debug` raise a fatal error
immediately, before any iteration, if and only if `par['alpha']` either
fails the `isinstance(..., float)` test (`ValueError`) or is the zero float
(`ZeroDivisionError` from `omega = 1./par['alpha']`); for every nonzero
plain float `alpha` they proceed with step size `omega = 1/alpha`.  The
iffs hold for every operator, right-hand side and initial guess, so the
errors precede any iteration. -/
theorem richardson_alpha_fatal {T : Type} (ops : TensorOps T)
    (Afun : T → T) (B : T) (x0 : Option T) (nrm? : Option (T → ℚ))
    (par : RichPar) :
    ((richardson ops Afun B x0 nrm? par = .error .valueError ↔
        par.alpha = .pyOther)
      ∧ (richardson_debug ops Afun B x0 nrm? par = .error .valueError ↔
        par.alpha = .pyOther))
    ∧ ((richardson ops Afun B x0 nrm? par = .error .zeroDivisionError ↔
        par.alpha = .pyFloat 0)
      ∧ (richardson_debug ops Afun B x0 nrm? par = .error .zeroDivisionError ↔
        par.alpha = .pyFloat 0))
    ∧ (∀ a, par.alpha = .pyFloat a → a ≠ 0 →
        richardson ops Afun B x0 nrm? par
          = .ok (richardsonRun ops Afun B x0 nrm? par (1/a))
        ∧ richardson_debug ops Afun B x0 nrm? par
          = .ok (richardson_debugRun ops Afun B x0 nrm? par (1/a))) := by
  refine ⟨⟨?_, ?_⟩, ⟨?_, ?_⟩, ?_⟩
  · cases h : par.alpha with
    | pyFloat a =>
      by_cases ha : a = 0 <;> simp [richardson, h, ha]
    | pyOther => simp [richardson, h]
  · cases h : par.alpha with
    | pyFloat a =>
      by_cases ha : a = 0 <;> simp [richardson_debug, h, ha]
    | pyOther => simp [richardson_debug, h]
  · cases h : par.alpha with
    | pyFloat a =>
      by_cases ha : a = 0 <;> simp [richardson, h, ha]
    | pyOther => simp [richardson, h]
  · cases h : par.alpha with
    | pyFloat a =>
      by_cases ha : a = 0 <;> simp [richardson_debug, h, ha]
    | pyOther => simp [richardson_debug, h]
  · intro a ha hne
    exact ⟨by simp [richardson, ha, hne], by simp [richardson_debug, ha, hne]⟩

/-- C9 witness: on the concrete model, a non-float `alpha` makes both
Richardson variants fail with `ValueError`, the zero float makes
`richardson` fail with `ZeroDivisionError`, and `alpha = 2.0` makes
`richardson` run with `omega = 1/2`. -/
theorem richardson_alpha_fatal_witness :
    richardson modelOps id ((1:ℚ), (0:ℚ)) none none
        ⟨.pyOther, 1/1000, 10, false⟩ = .error .valueError
    ∧ richardson_debug modelOps id ((1:ℚ), (0:ℚ)) none none
        ⟨.pyOther, 1/1000, 10, false⟩ = .error .valueError
    ∧ richardson modelOps id ((1:ℚ), (0:ℚ)) none none
        ⟨.pyFloat 0, 1/1000, 10, false⟩ = .error .zeroDivisionError
    ∧ richardson modelOps id ((1:ℚ), (0:ℚ)) none none
        ⟨.pyFloat 2, 1/1000, 10, false⟩
      = .ok (richardsonRun modelOps id ((1:ℚ), (0:ℚ)) none none
          ⟨.pyFloat 2, 1/1000, 10, false⟩ (1/2)) :=
  ⟨(richardson_alpha_fatal modelOps id ((1:ℚ), (0:ℚ)) none none
      ⟨.pyOther, 1/1000, 10, false⟩).1.1.mpr rfl,
   (richardson_alpha_fatal modelOps id ((1:ℚ), (0:ℚ)) none none
      ⟨.pyOther, 1/1000, 10, false⟩).1.2.mpr rfl,
   (richardson_alpha_fatal modelOps id ((1:ℚ), (0:ℚ)) none none
      ⟨.pyFloat 0, 1/1000, 10, false⟩).2.1.1.mpr rfl,
   ((richardson_alpha_fatal modelOps id ((1:ℚ), (0:ℚ)) none none
      ⟨.pyFloat 2, 1/1000, 10, false⟩).2.2 2 rfl (by norm_num)).1⟩

/-- C1 counterexample: at iteration 2 (with `eigrange = (1, 3)`, so `d = 2`,
`c = 1`, and `r = 0`, `v = (1, 0)` so that the new `v = -p·v` exposes `p`),
the code uses `p = -(1/2)*(c/d)² = -1/8`, whereas the claimed coefficient
`p = -(c/(2d))²` equals `-1/16`: the auxiliary directions produced by the
two coefficients differ. -/
theorem chebyStep_iter2_coef_cex :
    (chebyStep modelOps id ((0:ℚ), (0:ℚ)) 2 1 1
        ⟨((0:ℚ), (0:ℚ)), ((0:ℚ), (0:ℚ)), ((1:ℚ), (0:ℚ)), 0, [1], 1⟩).v
      = ((1/8 : ℚ), (0:ℚ))
    ∧ (chebyStep modelOps id ((0:ℚ), (0:ℚ)) 2 1 1
        ⟨((0:ℚ), (0:ℚ)), ((0:ℚ), (0:ℚ)), ((1:ℚ), (0:ℚ)), 0, [1], 1⟩).v
      ≠ modelOps.truncate (modelOps.sub ((0:ℚ), (0:ℚ))
          (modelOps.smul (-((1 / (2 * 2) : ℚ))^2) ((1:ℚ), (0:ℚ)))) := by
  refine ⟨?_, ?_⟩ <;> simp [chebyStep, modelOps, Prod.ext_iff] <;> norm_num

/-- C1 (amended): the recurrence coefficients of the `cheby2TERM` loop body
are: at iteration 1, `p = 0` and `w = 1/d`; at iteration 2,
`p = -(1/2)·(c/d)²` (not `-(c/(2d))²` as claimed) and `w = 1/(d - c²/(2d))`;
at every iteration ≥ 3, `p = -(c²/4)·w_prev²` and `w = 1/(d - c²·w_prev/4)`,
where `w_prev` is the loop-carried `w` of the previous iteration.  The
coefficient `p` is exposed through the auxiliary-direction update
`v ← truncate(r - p·v)` and `w` through the state's `w` field. -/
theorem chebyStep_coefficients {T : Type} (ops : TensorOps T)
    (Afun : T → T) (B : T) (d c r0 : ℚ) (s : ChebyState T) :
    (s.kit = 0 →
      (chebyStep ops Afun B d c r0 s).w = 1/d
      ∧ (chebyStep ops Afun B d c r0 s).v
        = ops.truncate (ops.sub s.r (ops.smul 0 s.v)))
    ∧ (s.kit = 1 →
      (chebyStep ops Afun B d c r0 s).w = 1/(d - c*c/(2*d))
      ∧ (chebyStep ops Afun B d c r0 s).v
        = ops.truncate (ops.sub s.r (ops.smul (-(1/2)*(c/d)*(c/d)) s.v)))
    ∧ (2 ≤ s.kit →
      (chebyStep ops Afun B d c r0 s).w = 1/(d - c*c*s.w/4)
      ∧ (chebyStep ops Afun B d c r0 s).v
        = ops.truncate (ops.sub s.r (ops.smul (-(c*c/4)*s.w*s.w) s.v))) := by
  refine ⟨fun h0 => ?_, fun h1 => ?_, fun h2 => ?_⟩
  · simp [chebyStep, h0]
  · simp [chebyStep, h1, div_div]
  · have hne1 : ¬ s.kit + 1 = 1 := by omega
    have hne2 : ¬ s.kit + 1 = 2 := by omega
    simp [chebyStep, hne1, hne2]

/-- C1 witness: the amended coefficient theorem applied at iteration 1 on
the concrete model: `w = 1/d = 1/2` and `v = truncate(r - 0·v)`. -/
theorem chebyStep_coefficients_witness :
    (chebyStep modelOps id ((0:ℚ), (0:ℚ)) 2 1 1
        ⟨((0:ℚ), (0:ℚ)), ((3:ℚ), (1:ℚ)), ((1:ℚ), (0:ℚ)), 0, [1], 0⟩).w = 1/2
    ∧ (chebyStep modelOps id ((0:ℚ), (0:ℚ)) 2 1 1
        ⟨((0:ℚ), (0:ℚ)), ((3:ℚ), (1:ℚ)), ((1:ℚ), (0:ℚ)), 0, [1], 0⟩).v
      = modelOps.truncate (modelOps.sub ((3:ℚ), (1:ℚ))
          (modelOps.smul 0 ((1:ℚ), (0:ℚ)))) :=
  (chebyStep_coefficients modelOps id ((0:ℚ), (0:ℚ)) 2 1 1
    ⟨((0:ℚ), (0:ℚ)), ((3:ℚ), (1:ℚ)), ((1:ℚ), (0:ℚ)), 0, [1], 0⟩).1 rfl

/-- C3: in every `minimal_residual` iteration whose incoming cached norm
`norm_res` agrees with the norm of the current residual (which holds at the
initial state and is re-established by every step, third conjunct), the step
size is `‖residuum‖/‖beta‖` when `approx_omega` is set, and otherwise the
exact value `⟨beta, residuum⟩/‖beta‖²`, replaced by `‖residuum‖/‖beta‖`
exactly when its magnitude is below `1e-1`; the iterate update of the step
uses exactly this `omega`. -/
theorem minimal_residual_omega_spec {T : Type} (ops : TensorOps T)
    (Afun : T → T) (B : T) (nrm : T → ℚ) (par : MRPar) (s : MRState T)
    (hs : s.norm_res = nrm s.residuum) :
    (mrOmega ops nrm par s =
      if par.approx_omega = true then nrm s.residuum / nrm s.beta
      else if |ops.inner s.beta s.residuum / (nrm s.beta)^2| < 1/10 then
        nrm s.residuum / nrm s.beta
      else ops.inner s.beta s.residuum / (nrm s.beta)^2)
    ∧ (mrStep ops Afun B nrm par s).1.x =
        ops.truncate (ops.add
          (ops.smul (-(ops.mean (ops.add s.x
            (ops.smul (mrOmega ops nrm par s) s.residuum)))) ops.fm)
          (ops.add s.x (ops.smul (mrOmega ops nrm par s) s.residuum)))
    ∧ (mrStep ops Afun B nrm par s).1.norm_res
        = nrm (mrStep ops Afun B nrm par s).1.residuum := by
  refine ⟨?_, ?_, ?_⟩
  · simp only [mrOmega, hs]
  · unfold mrStep
    dsimp only
    split <;> split <;> rfl
  · unfold mrStep
    dsimp only
    split <;> split <;> rfl

/-- C3 witness: a concrete minimal-residual state on the two-point model
with `approx_omega` set; the step size is the approximate ratio
`‖residuum‖/‖beta‖`. -/
theorem minimal_residual_omega_spec_witness :
    mrOmega modelOps modelOps.normND ⟨1/1000, 10, true, true⟩
      ⟨((1:ℚ), (-1:ℚ)), ((2:ℚ), (-2:ℚ)), ((-2:ℚ), (2:ℚ)), 4, [4], 0⟩
      = modelOps.normND ((2:ℚ), (-2:ℚ)) / modelOps.normND ((-2:ℚ), (2:ℚ)) := by
  have h := (minimal_residual_omega_spec modelOps negId ((1:ℚ), (-1:ℚ))
    modelOps.normND ⟨1/1000, 10, true, true⟩
    ⟨((1:ℚ), (-1:ℚ)), ((2:ℚ), (-2:ℚ)), ((-2:ℚ), (2:ℚ)), 4, [4], 0⟩
    (by norm_num [modelOps])).1
  simpa using h

lemma mrStep_x {T : Type} (ops : TensorOps T) (Afun : T → T) (B : T)
    (nrm : T → ℚ) (par : MRPar) (s : MRState T) :
    (mrStep ops Afun B nrm par s).1.x =
      ops.truncate (ops.add
        (ops.smul (-(ops.mean (ops.add s.x
          (ops.smul (mrOmega ops nrm par s) s.residuum)))) ops.fm)
        (ops.add s.x (ops.smul (mrOmega ops nrm par s) s.residuum))) := by
  unfold mrStep
  dsimp only
  split <;> split <;> rfl

lemma mrStep_kit {T : Type} (ops : TensorOps T) (Afun : T → T) (B : T)
    (nrm : T → ℚ) (par : MRPar) (s : MRState T) :
    (mrStep ops Afun B nrm par s).1.kit = s.kit + 1 := by
  unfold mrStep
  dsimp only
  split <;> split <;> rfl

lemma mrStep_bool_cases {T : Type} (ops : TensorOps T) (Afun : T → T) (B : T)
    (nrm : T → ℚ) (par : MRPar) (s : MRState T) :
    ((mrStep ops Afun B nrm par s).2 = true
      ∧ (mrStep ops Afun B nrm par s).1.hist = s.hist)
    ∨ ((mrStep ops Afun B nrm par s).2 = false
      ∧ (mrStep ops Afun B nrm par s).1.hist
          = s.hist ++ [(mrStep ops Afun B nrm par s).1.norm_res]) := by
  unfold mrStep
  dsimp only
  split <;> split
  · exact Or.inl ⟨rfl, rfl⟩
  · exact Or.inr ⟨rfl, rfl⟩
  · exact Or.inl ⟨rfl, rfl⟩
  · exact Or.inr ⟨rfl, rfl⟩

lemma richStep_bool_cases {T : Type} (ops : TensorOps T) (Afun : T → T)
    (B : T) (nrm : T → ℚ) (omega : ℚ) (par : RichPar) (s : RichState T) :
    ((richStep ops Afun B nrm omega par s).2 = true
      ∧ (richStep ops Afun B nrm omega par s).1.x = s.x
      ∧ (richStep ops Afun B nrm omega par s).1.hist = s.hist)
    ∨ ((richStep ops Afun B nrm omega par s).2 = false
      ∧ (richStep ops Afun B nrm omega par s).1.x =
          ops.truncate (ops.add
            (ops.smul (-(ops.mean (ops.add s.x
              (ops.smul omega (ops.sub B (Afun s.x)))))) ops.fm)
            (ops.add s.x (ops.smul omega (ops.sub B (Afun s.x)))))
      ∧ (richStep ops Afun B nrm omega par s).1.hist
          = s.hist ++ [nrm (ops.sub B (Afun s.x))]
      ∧ (richStep ops Afun B nrm omega par s).1.kit = s.kit + 1
      ∧ ¬(par.divcrit = true
            ∧ nrm (ops.sub B (Afun s.x)) > s.hist.getD s.kit 0)) := by
  unfold richStep
  dsimp only [Nat.add_sub_cancel]
  split
  · exact Or.inl ⟨rfl, rfl, rfl⟩
  · next hc => exact Or.inr ⟨rfl, rfl, rfl, rfl, hc⟩

lemma richLoop_mono_of_divcrit {T : Type} (ops : TensorOps T) (Afun : T → T)
    (B : T) (nrm : T → ℚ) (omega : ℚ) (par : RichPar)
    (hdc : par.divcrit = true) :
    ∀ (fuel : ℕ) (s : RichState T), s.hist.length = s.kit + 1 → MonoQ s.hist →
      MonoQ (richLoop ops Afun B nrm omega par fuel s).hist := by
  intro fuel
  induction fuel with
  | zero => intro s _ hm; exact hm
  | succ n ih =>
    intro s hlen hm
    rw [richLoop]
    split
    · rcases richStep_bool_cases ops Afun B nrm omega par s with
        ⟨hb, _, hh⟩ | ⟨hb, _, hh, hk, hnd⟩
      · cases hstep : richStep ops Afun B nrm omega par s with
        | mk s' b =>
          rw [hstep] at hb hh
          dsimp only at hb hh
          subst hb
          dsimp only
          rw [hh]
          exact hm
      · cases hstep : richStep ops Afun B nrm omega par s with
        | mk s' b =>
          rw [hstep] at hb hh hk
          dsimp only at hb hh hk
          subst hb
          dsimp only
          apply ih
          · rw [hh, hk]
            simp [hlen]
          · rw [hh]
            apply monoQ_snoc _ _ hm
            push_neg at hnd
            have hq := hnd hdc
            rwa [hlen, Nat.add_sub_cancel]
    · exact hm

/-- C5: with `divcrit` enabled, whenever a `richardson` iteration finds a
residual norm exceeding the previous history entry it breaks leaving the
iterate and the history exactly as they were (the check precedes the update
and the append); such a break ends the loop at once; and consequently every
history returned by `richardson` is non-increasing — no entry exceeding its
predecessor is ever appended. -/
theorem richardson_divcrit_stops {T : Type} (ops : TensorOps T)
    (Afun : T → T) (B : T) (x0 : Option T) (nrm? : Option (T → ℚ))
    (par : RichPar) (hdc : par.divcrit = true) :
    (∀ (nrm : T → ℚ) (omega : ℚ) (s : RichState T),
        (richStep ops Afun B nrm omega par s).2 = true →
          (richStep ops Afun B nrm omega par s).1.x = s.x
          ∧ (richStep ops Afun B nrm omega par s).1.hist = s.hist)
    ∧ (∀ (nrm : T → ℚ) (omega : ℚ) (fuel : ℕ) (s : RichState T),
        (richStep ops Afun B nrm omega par s).2 = true →
        s.norm_res > par.tol → (s.kit : ℚ) < par.maxiter →
          richLoop ops Afun B nrm omega par (fuel + 1) s
            = (richStep ops Afun B nrm omega par s).1)
    ∧ (∀ x hist kit,
        richardson ops Afun B x0 nrm? par = .ok (x, hist, kit) →
        ∀ i, i + 1 < hist.length → hist.getD (i + 1) 0 ≤ hist.getD i 0) := by
  refine ⟨?_, ?_, ?_⟩
  · intro nrm omega s h
    rcases richStep_bool_cases ops Afun B nrm omega par s with
      ⟨_, hx, hh⟩ | ⟨hb, _⟩
    · exact ⟨hx, hh⟩
    · rw [hb] at h
      exact absurd h (by simp)
  · intro nrm omega fuel s h hg1 hg2
    rw [richLoop, if_pos ⟨hg1, hg2⟩]
    cases hstep : richStep ops Afun B nrm omega par s with
    | mk s' b =>
      rw [hstep] at h
      dsimp only at h
      subst h
      rfl
  · intro x hist kit h i hi
    cases ha : par.alpha with
    | pyOther => simp [richardson, ha] at h
    | pyFloat a =>
      simp only [richardson, ha] at h
      rw [if_neg (by rintro rfl; simp at h)] at h
      have hrun := Except.ok.inj h
      have hh : hist = (richardsonRun ops Afun B x0 nrm? par (1/a)).2.1 := by
        rw [hrun]
      have hmono : MonoQ (richardsonRun ops Afun B x0 nrm? par (1/a)).2.1 := by
        show MonoQ (richLoop ops Afun B (nrm?.getD ops.norm) (1/a) par
          ((⌈par.maxiter⌉).toNat + 1)
          ⟨x0.getD (ops.smul (1/a) B), 10^15, [(nrm?.getD ops.norm) B], 0⟩).hist
        apply richLoop_mono_of_divcrit ops Afun B _ _ par hdc
        · rfl
        · intro j hj
          simp at hj
      rw [← hh] at hmono
      exact hmono i hi

/-- C5 witness: on the two-point model with `A = -I`, `alpha = 1.0` and
`divcrit` on, the very first iteration diverges (`‖B - A x‖ = 4 > 2 = ‖B‖`)
and the step breaks, leaving the iterate and history untouched. -/
theorem richardson_divcrit_stops_witness :
    (richStep modelOps negId ((1:ℚ), (-1:ℚ)) modelOps.norm 1
        ⟨.pyFloat 1, 1/1000, 10, true⟩
        ⟨((1:ℚ), (-1:ℚ)), 10^15, [2], 0⟩).1.x = ((1:ℚ), (-1:ℚ))
    ∧ (richStep modelOps negId ((1:ℚ), (-1:ℚ)) modelOps.norm 1
        ⟨.pyFloat 1, 1/1000, 10, true⟩
        ⟨((1:ℚ), (-1:ℚ)), 10^15, [2], 0⟩).1.hist = [2] :=
  (richardson_divcrit_stops modelOps negId ((1:ℚ), (-1:ℚ)) none none
    ⟨.pyFloat 1, 1/1000, 10, true⟩ rfl).1 modelOps.norm 1
    ⟨((1:ℚ), (-1:ℚ)), 10^15, [2], 0⟩
    (by simp [richStep, modelOps, negId]; norm_num)

/-- C4 counterexample: minimal residual with `divcrit` on `A = -I`,
`B = (1, -1)`, `x0 = B` diverges at the very first iteration; the returned
history `[4]` holds only the pre-divergence (initial) residual norm, but the
returned iterate is `(3, -3)`, the iterate already updated in the diverging
iteration, not the last pre-divergence iterate `(1, -1)`. -/
theorem minimal_residual_divcrit_cex :
    minimal_residual modelOps negId ((1:ℚ), (-1:ℚ)) none none
        ⟨1/1000, 10, true, true⟩
      = (((3:ℚ), (-3:ℚ)), [4], 1)
    ∧ (((3:ℚ), (-3:ℚ)) : ℚ × ℚ) ≠ ((1:ℚ), (-1:ℚ)) := by
  constructor
  · simp [minimal_residual, mrLoop, mrStep, mrOmega, modelOps, negId]
    norm_num
  · simp [Prod.ext_iff]

/-- C4 (amended): with `divcrit` enabled, whenever a `minimal_residual`
iteration detects divergence (the new residual norm exceeds the previous
recorded entry) the loop stops before recording the new value, so the
returned history holds only pre-divergence norms; but — since the update
precedes the check — the iterate returned is the mean-corrected iterate
already updated in that diverging iteration, not the pre-update iterate. -/
theorem minimal_residual_divcrit_break {T : Type} (ops : TensorOps T)
    (Afun : T → T) (B : T) (nrm : T → ℚ) (par : MRPar) (s : MRState T)
    (h : (mrStep ops Afun B nrm par s).2 = true) :
    (mrStep ops Afun B nrm par s).1.hist = s.hist
    ∧ (mrStep ops Afun B nrm par s).1.x =
        ops.truncate (ops.add
          (ops.smul (-(ops.mean (ops.add s.x
            (ops.smul (mrOmega ops nrm par s) s.residuum)))) ops.fm)
          (ops.add s.x (ops.smul (mrOmega ops nrm par s) s.residuum)))
    ∧ (∀ fuel : ℕ, s.norm_res > par.tol → (s.kit : ℚ) < par.maxiter →
        mrLoop ops Afun B nrm par (fuel + 1) s
          = (mrStep ops Afun B nrm par s).1) := by
  refine ⟨?_, mrStep_x ops Afun B nrm par s, ?_⟩
  · rcases mrStep_bool_cases ops Afun B nrm par s with ⟨_, hh⟩ | ⟨hb, _⟩
    · exact hh
    · rw [hb] at h
      exact absurd h (by simp)
  · intro fuel hg1 hg2
    rw [mrLoop, if_pos ⟨hg1, hg2⟩]
    cases hstep : mrStep ops Afun B nrm par s with
    | mk s' b =>
      rw [hstep] at h
      dsimp only at h
      subst h
      rfl

/-- C4 witness: on the diverging concrete run of the counterexample, the
breaking step keeps the history `[4]` while its iterate is the updated
`(3, -3)`. -/
theorem minimal_residual_divcrit_break_witness :
    (mrStep modelOps negId ((1:ℚ), (-1:ℚ)) modelOps.normND
        ⟨1/1000, 10, true, true⟩
        ⟨((1:ℚ), (-1:ℚ)), ((2:ℚ), (-2:ℚ)), ((-2:ℚ), (2:ℚ)), 4, [4], 0⟩).1.hist
      = [4] :=
  (minimal_residual_divcrit_break modelOps negId ((1:ℚ), (-1:ℚ))
    modelOps.normND ⟨1/1000, 10, true, true⟩
    ⟨((1:ℚ), (-1:ℚ)), ((2:ℚ), (-2:ℚ)), ((-2:ℚ), (2:ℚ)), 4, [4], 0⟩
    (by simp [mrStep, mrOmega, modelOps, negId]; norm_num)).1

lemma mean_correct_zero {T : Type} (ops : TensorOps T)
    (hadd : ∀ a b, ops.mean (ops.add a b) = ops.mean a + ops.mean b)
    (hsmul : ∀ q a, ops.mean (ops.smul q a) = q * ops.mean a)
    (hfm : ops.mean ops.fm = 1)
    (htr : ∀ a, ops.mean (ops.truncate a) = ops.mean a) (x : T) :
    ops.mean (ops.truncate (ops.add (ops.smul (-(ops.mean x)) ops.fm) x))
      = 0 := by
  rw [htr, hadd, hsmul, hfm]
  ring

lemma richLoop_mean_zero {T : Type} (ops : TensorOps T)
    (hadd : ∀ a b, ops.mean (ops.add a b) = ops.mean a + ops.mean b)
    (hsmul : ∀ q a, ops.mean (ops.smul q a) = q * ops.mean a)
    (hfm : ops.mean ops.fm = 1)
    (htr : ∀ a, ops.mean (ops.truncate a) = ops.mean a)
    (Afun : T → T) (B : T) (nrm : T → ℚ) (omega : ℚ) (par : RichPar) :
    ∀ (fuel : ℕ) (s : RichState T),
      (2 ≤ s.hist.length → ops.mean s.x = 0) →
      (2 ≤ (richLoop ops Afun B nrm omega par fuel s).hist.length →
        ops.mean (richLoop ops Afun B nrm omega par fuel s).x = 0) := by
  intro fuel
  induction fuel with
  | zero => intro s hP; exact hP
  | succ n ih =>
    intro s hP
    rw [richLoop]
    split
    · rcases richStep_bool_cases ops Afun B nrm omega par s with
        ⟨hb, hx, hh⟩ | ⟨hb, hx, _⟩
      · cases hstep : richStep ops Afun B nrm omega par s with
        | mk s' b =>
          rw [hstep] at hb hx hh
          dsimp only at hb hx hh
          subst hb
          dsimp only
          rw [hx, hh]
          exact hP
      · cases hstep : richStep ops Afun B nrm omega par s with
        | mk s' b =>
          rw [hstep] at hb hx
          dsimp only at hb hx
          subst hb
          dsimp only
          apply ih
          intro _
          rw [hx]
          exact mean_correct_zero ops hadd hsmul hfm htr _
    · exact hP

lemma mrLoop_mean_zero {T : Type} (ops : TensorOps T)
    (hadd : ∀ a b, ops.mean (ops.add a b) = ops.mean a + ops.mean b)
    (hsmul : ∀ q a, ops.mean (ops.smul q a) = q * ops.mean a)
    (hfm : ops.mean ops.fm = 1)
    (htr : ∀ a, ops.mean (ops.truncate a) = ops.mean a)
    (Afun : T → T) (B : T) (nrm : T → ℚ) (par : MRPar) :
    ∀ (fuel : ℕ) (s : MRState T),
      (1 ≤ s.kit → ops.mean s.x = 0) →
      (1 ≤ (mrLoop ops Afun B nrm par fuel s).kit →
        ops.mean (mrLoop ops Afun B nrm par fuel s).x = 0) := by
  intro fuel
  induction fuel with
  | zero => intro s hP; exact hP
  | succ n ih =>
    intro s hP
    rw [mrLoop]
    split
    · have hx := mrStep_x ops Afun B nrm par s
      cases hstep : mrStep ops Afun B nrm par s with
      | mk s' b =>
        rw [hstep] at hx
        dsimp only at hx
        have hmean : ops.mean s'.x = 0 := by
          rw [hx]
          exact mean_correct_zero ops hadd hsmul hfm htr _
        cases b with
        | true => exact fun _ => hmean
        | false => exact ih s' (fun _ => hmean)
    · exact hP

/-- C2 counterexample: `richardson_debug` applies no mean correction — with
`A = id` and `B = (2, 0)` it performs one accepted iteration (one appended
history entry) and returns the iterate `(2, 0)`, whose spatial mean is `1`,
not zero. -/
theorem richardson_debug_mean_cex :
    richardson_debug modelOps id ((2:ℚ), (0:ℚ)) none none
        ⟨.pyFloat 1, 1/1000, 10, true⟩
      = .ok (((2:ℚ), (0:ℚ)), [0, 0], 1)
    ∧ modelOps.mean ((2:ℚ), (0:ℚ)) ≠ 0 := by
  constructor
  · simp [richardson_debug, richardson_debugRun, richdbgLoop, richdbgStep,
      modelOps]
    norm_num
  · norm_num [modelOps]

/-- C2 (amended): in every solver variant except `richardson_debug` (which
applies no mean correction), every accepted iteration applies the
mean-correction step `x ← truncate(-FM·mean(x) + x)` after updating the
iterate, and — whenever the tensor capability satisfies mean-linearity,
`mean FM = 1`, and mean-preserving (exact) truncation — the iterate's mean
is zero after every accepted iteration; a diverging `richardson` step leaves
the iterate untouched, so the iterate returned by `richardson` (at least one
recorded iteration) or `minimal_residual` (at least one iteration) has zero
mean. -/
theorem mean_correction_zero_mean {T : Type} (ops : TensorOps T)
    (hadd : ∀ a b, ops.mean (ops.add a b) = ops.mean a + ops.mean b)
    (hsmul : ∀ q a, ops.mean (ops.smul q a) = q * ops.mean a)
    (hfm : ops.mean ops.fm = 1)
    (htr : ∀ a, ops.mean (ops.truncate a) = ops.mean a) :
    (∀ (Afun : T → T) (B : T) (d c r0 : ℚ) (s : ChebyState T),
        ops.mean (chebyStep ops Afun B d c r0 s).x = 0)
    ∧ (∀ (Afun : T → T) (B : T) (nrm : T → ℚ) (par : MRPar) (s : MRState T),
        ops.mean (mrStep ops Afun B nrm par s).1.x = 0)
    ∧ (∀ (Afun : T → T) (B : T) (nrm : T → ℚ) (omega : ℚ) (par : RichPar)
        (s : RichState T),
        ((richStep ops Afun B nrm omega par s).2 = false →
          ops.mean (richStep ops Afun B nrm omega par s).1.x = 0)
        ∧ ((richStep ops Afun B nrm omega par s).2 = true →
          (richStep ops Afun B nrm omega par s).1.x = s.x))
    ∧ (∀ (Afun : T → T) (B : T) (x0 : Option T) (nrm? : Option (T → ℚ))
        (par : RichPar) (x : T) (hist : List ℚ) (kit : ℕ),
        richardson ops Afun B x0 nrm? par = .ok (x, hist, kit) →
        2 ≤ hist.length → ops.mean x = 0)
    ∧ (∀ (Afun : T → T) (B : T) (x0 : Option T) (nrm? : Option (T → ℚ))
        (par : MRPar),
        1 ≤ (minimal_residual ops Afun B x0 nrm? par).2.2 →
        ops.mean (minimal_residual ops Afun B x0 nrm? par).1 = 0) := by
  refine ⟨?_, ?_, ?_, ?_, ?_⟩
  · intro Afun B d c r0 s
    unfold chebyStep
    dsimp only
    exact mean_correct_zero ops hadd hsmul hfm htr _
  · intro Afun B nrm par s
    rw [mrStep_x]
    exact mean_correct_zero ops hadd hsmul hfm htr _
  · intro Afun B nrm omega par s
    constructor
    · intro h
      rcases richStep_bool_cases ops Afun B nrm omega par s with
        ⟨hb, _⟩ | ⟨_, hx, _⟩
      · rw [hb] at h
        exact absurd h (by simp)
      · rw [hx]
        exact mean_correct_zero ops hadd hsmul hfm htr _
    · intro h
      rcases richStep_bool_cases ops Afun B nrm omega par s with
        ⟨_, hx, _⟩ | ⟨hb, _⟩
      · exact hx
      · rw [hb] at h
        exact absurd h (by simp)
  · intro Afun B x0 nrm? par x hist kit h hlen
    cases ha : par.alpha with
    | pyOther => simp [richardson, ha] at h
    | pyFloat a =>
      simp only [richardson, ha] at h
      rw [if_neg (by rintro rfl; simp at h)] at h
      have hrun := Except.ok.inj h
      have hx : x = (richardsonRun ops Afun B x0 nrm? par (1/a)).1 := by
        rw [hrun]
      have hh : hist = (richardsonRun ops Afun B x0 nrm? par (1/a)).2.1 := by
        rw [hrun]
      have hkey : 2 ≤ (richLoop ops Afun B (nrm?.getD ops.norm) (1/a) par
          ((⌈par.maxiter⌉).toNat + 1)
          ⟨x0.getD (ops.smul (1/a) B), 10^15, [(nrm?.getD ops.norm) B], 0⟩).hist.length →
          ops.mean (richLoop ops Afun B (nrm?.getD ops.norm) (1/a) par
            ((⌈par.maxiter⌉).toNat + 1)
            ⟨x0.getD (ops.smul (1/a) B), 10^15, [(nrm?.getD ops.norm) B], 0⟩).x = 0 := by
        apply richLoop_mean_zero ops hadd hsmul hfm htr
        intro habs
        simp at habs
      rw [hx]
      show ops.mean (richLoop ops Afun B (nrm?.getD ops.norm) (1/a) par
        ((⌈par.maxiter⌉).toNat + 1)
        ⟨x0.getD (ops.smul (1/a) B), 10^15, [(nrm?.getD ops.norm) B], 0⟩).x = 0
      apply hkey
      rw [hh] at hlen
      exact hlen
  · intro Afun B x0 nrm? par hkit
    show ops.mean (mrLoop ops Afun B (nrm?.getD ops.normND) par
      ((⌈par.maxiter⌉).toNat + 1)
      ⟨x0.getD B, ops.sub B (Afun (x0.getD B)),
        Afun (ops.sub B (Afun (x0.getD B))),
        (nrm?.getD ops.normND) (ops.sub B (Afun (x0.getD B))),
        [(nrm?.getD ops.normND) (ops.sub B (Afun (x0.getD B)))], 0⟩).x = 0
    apply mrLoop_mean_zero ops hadd hsmul hfm htr
    · intro habs
      simp at habs
    · exact hkit

/-- C2 witness: the mean-correction theorem on the two-point model — the
Chebyshev step maps an iterate of mean 4 to one of mean 0, and a converged
two-entry richardson run returns a zero-mean iterate. -/
theorem mean_correction_zero_mean_witness :
    modelOps.mean (chebyStep modelOps id ((1:ℚ), (1:ℚ)) 2 1 1
      ⟨((5:ℚ), (3:ℚ)), ((0:ℚ), (0:ℚ)), ((0:ℚ), (0:ℚ)), 0, [1], 0⟩).x = 0 :=
  (mean_correction_zero_mean modelOps
    (fun a b => by
      show ((a.1 + b.1) + (a.2 + b.2))/2 = (a.1 + a.2)/2 + (b.1 + b.2)/2
      ring)
    (fun q a => by
      show (q * a.1 + q * a.2)/2 = q * ((a.1 + a.2)/2)
      ring)
    (by norm_num [modelOps])
    (fun a => rfl)).1 id ((1:ℚ), (1:ℚ)) 2 1 1
    ⟨((5:ℚ), (3:ℚ)), ((0:ℚ), (0:ℚ)), ((0:ℚ), (0:ℚ)), 0, [1], 0⟩

/-- C6: with a zero-norm right-hand side, the guard `bnrm2 == 0 → bnrm2 = 1`
never reaches the normalized residual, because `Ib = 1.0/bnrm2` is computed
before it and `bnrm2` is never read afterwards.  Concretely (`B` the zero
tensor, `x0 = (2, 0)`, `A = id`, so `r0 = 2`): the first history entry is
`(1/0)·r0` — `0` in the rational embedding, where numpy float division by
zero yields `inf` — and not `r0/1 = 2`, the value the claimed replacement
would produce.  (With the entry `0 < tol` the embedded call returns the
initial guess with the degenerate history `[0]`.) -/
theorem cheby2TERM_zero_norm_div_bug :
    cheby2TERM modelOps id ((0:ℚ), (0:ℚ)) (some ((2:ℚ), (0:ℚ)))
        ⟨some (1/1000), some 10, some (1, 3)⟩
      = .ok (((2:ℚ), (0:ℚ)), NormRes.seq [0], 0)
    ∧ (0:ℚ) ≠
        modelOps.norm (modelOps.sub ((0:ℚ), (0:ℚ)) ((2:ℚ), (0:ℚ))) / 1 := by
  constructor
  · simp [cheby2TERM, chebyLoop, pyLtFloatList, modelOps]
  · norm_num [modelOps]

/-- C7: a `cheby2TERM` call that proceeds past the initial-convergence early
return reaches the report line `par['tol'] < res['norm_res']`, which
compares a float with a list and under Python 3 raises `TypeError`: the
report is fatal, and the comparison never consults the final recorded
normalized residual.  Concrete run: `A = 2·I`, `B = (1, -1)`, initial
normalized residual `1 > tol`, loop converges after one iteration, then the
report raises. -/
theorem cheby2TERM_report_fatal :
    cheby2TERM modelOps twoId ((1:ℚ), (-1:ℚ)) none
        ⟨some (1/1000), some 10, some (1, 3)⟩
      = .error .typeError := by
  simp [cheby2TERM, chebyLoop, chebyStep, pyLtFloatList, modelOps, twoId]
  norm_num

/-- C8 counterexample: a `cheby2TERM` call performing zero loop iterations
(the initial normalized residual `0` is already below tolerance) returns
`norm_res` as the one-element list `[0]`, not the scalar `0`. -/
theorem cheby2TERM_zero_iter_cex :
    cheby2TERM modelOps id ((1:ℚ), (-1:ℚ)) none
        ⟨some (1/1000), some 10, some (1, 3)⟩
      = .ok (((1:ℚ), (-1:ℚ)), NormRes.seq [0], 0)
    ∧ NormRes.seq [(0:ℚ)] ≠ NormRes.scalar 0 := by
  constructor
  · simp [cheby2TERM, chebyLoop, pyLtFloatList, modelOps]
  · simp

/-- C8 (amended): every `cheby2TERM` call that returns normally does so via
the zero-iteration early-return path, with `norm_res` the one-element list
holding the normalized initial residual — never the scalar `0`.  The
scalar-0 reassignment of lines 92-93 sits after the final report, which
under Python 3 raises `TypeError` before it can execute. -/
theorem cheby2TERM_zero_iter_hist {T : Type} (ops : TensorOps T)
    (Afun : T → T) (B : T) (x0 : Option T) (par : ChebyPar)
    (x : T) (nr : NormRes) (kit : ℕ)
    (h : cheby2TERM ops Afun B x0 par = .ok (x, nr, kit)) :
    kit = 0
    ∧ nr = NormRes.seq
        [(1 / ops.norm B) * ops.norm (ops.sub B (Afun (x0.getD B)))]
    ∧ nr ≠ NormRes.scalar 0 := by
  cases he : par.eigrange? with
  | none => simp [cheby2TERM, he] at h
  | some Egv =>
    simp only [cheby2TERM, he] at h
    split at h
    · simp only [Except.ok.injEq, Prod.mk.injEq] at h
      obtain ⟨-, hnr, hkit⟩ := h
      refine ⟨hkit.symm, hnr.symm, ?_⟩
      rw [← hnr]
      simp
    · simp [pyLtFloatList] at h

/-- C8 witness: the amended zero-iteration theorem applied to a concrete
early-return call on the two-point model. -/
theorem cheby2TERM_zero_iter_hist_witness :
    (0 : ℕ) = 0 ∧ NormRes.seq [(0:ℚ)] ≠ NormRes.scalar 0 := by
  have h : cheby2TERM modelOps id ((2:ℚ), (-2:ℚ)) none
      ⟨some (1/1000), some 10, some (1, 3)⟩
      = .ok (((2:ℚ), (-2:ℚ)), NormRes.seq [0], 0) := by
    simp [cheby2TERM, chebyLoop, pyLtFloatList, modelOps]
  have hthm := cheby2TERM_zero_iter_hist modelOps id ((2:ℚ), (-2:ℚ)) none
    ⟨some (1/1000), some 10, some (1, 3)⟩ ((2:ℚ), (-2:ℚ))
    (NormRes.seq [0]) 0 h
  exact ⟨hthm.1, hthm.2.2⟩

end FFTHomPy
